import Mathlib

/-!
Verification of the glob-matching core of rsconnect-python
(src/rsconnect/models.py: classes GlobMatcher and GlobSet).

Python strings are modelled as lists of characters (Seg); os.path.sep is '/'.
Fallible operations return Except / Option; a matching call returns
Option Bool, where none models a runtime error (an unguarded list index that
is out of range) and some b a normal boolean result.
-/

namespace Rsconnect

/-- A Python string (a path, a pattern, or one segment of either), modelled
as its list of characters. -/
abbrev Seg := List Char

/-- Convenience conversion from a Lean string literal to the character-list
model. -/
def chars (s : String) : Seg := s.toList

/-- Models Python str.split(os.path.sep) with os.path.sep = '/':
splitting on every separator occurrence, keeping empty pieces, and returning
the one-element list with the empty string for an empty input. -/
def splitPath : List Char → List Seg
  | [] => [[]]
  | c :: rest =>
    match splitPath rest with
    | [] => [[]]
    | h :: t => if c = '/' then [] :: h :: t else (c :: h) :: t

/-- Joins segments with the '/' separator: the inverse of splitPath on its
image (Python os.path.sep.join). -/
def joinPath : List Seg → List Char
  | [] => []
  | [s] => s
  | s :: rest => s ++ '/' :: joinPath rest

/-- Scans for the closing bracket of a character class: returns the
characters before the first unskipped close bracket and the remainder after
it, or none when no close bracket exists.  Mirrors the scanning loop of
fnmatch.translate. -/
def scanClassClose : List Char → Option (List Char × List Char)
  | [] => none
  | ']' :: rest => some ([], rest)
  | c :: rest =>
    match scanClassClose rest with
    | none => none
    | some (body, after) => some (c :: body, after)

/-- Parses a character class from the characters following an opening
bracket, per fnmatch.translate: an optional leading exclamation mark negates
the class; a close bracket directly after it belongs to the class body; the
body then extends to the next close bracket.  Returns
(negated, body, remainder), or none when the class is unterminated (in which
case fnmatch.translate treats the opening bracket as a literal character). -/
def parseClass (p : List Char) : Option (Bool × List Char × List Char) :=
  let (neg, p1) : Bool × List Char :=
    match p with
    | '!' :: r => (true, r)
    | _ => (false, p)
  match p1 with
  | ']' :: r2 =>
    match scanClassClose r2 with
    | none => none
    | some (body, after) => some (neg, ']' :: body, after)
  | _ =>
    match scanClassClose p1 with
    | none => none
    | some (body, after) => some (neg, body, after)

/-- Membership of a character in a class body, with 'a-b' ranges compared by
code point and every other character literal, as in the regular-expression
class produced by fnmatch.translate (whose escaping makes each body
character literal). -/
def inCharClass : List Char → Char → Bool
  | a :: '-' :: b :: rest, c =>
    if a ≤ c ∧ c ≤ b then true else inCharClass rest c
  | a :: rest, c => a == c || inCharClass rest c
  | [], _ => false

/-- Validity of the ranges of a class body: re.compile rejects a range
whose lower bound exceeds its upper bound (re.error, bad character range). -/
def rangesOk : List Char → Bool
  | a :: '-' :: b :: rest => a ≤ b && rangesOk rest
  | _ :: rest => rangesOk rest
  | [] => true

/-- Fuel-indexed scan of one glob segment checking that every character
class it contains has valid ranges, i.e. that re.compile accepts the
regular expression produced by fnmatch.translate for this segment.  The fuel
only bounds the recursion; segOk supplies enough for the scan to finish. -/
def segOkAux : Nat → List Char → Bool
  | 0, _ => true
  | fuel + 1, p =>
    match p with
    | [] => true
    | '[' :: rest =>
      match parseClass rest with
      | some (_, body, after) => rangesOk body && segOkAux fuel after
      | none => segOkAux fuel rest
    | _ :: rest => segOkAux fuel rest

/-- Whether re.compile succeeds on the translation of this glob segment. -/
def segOk (name : Seg) : Bool := segOkAux name.length name

/-- Fuel-indexed full match of one path segment against one glob segment,
with the semantics of re.compile(r"\A" + fnmatch.translate(name)).match:
'*' matches any character run, '?' any single character, a character class
one class member, an unterminated open bracket itself, and every other
character itself; the whole segment must be consumed.  The fuel only bounds
the recursion; fnmatchSeg supplies enough for any input. -/
def fnmatchAux : Nat → List Char → List Char → Bool
  | 0, _, _ => false
  | fuel + 1, p, s =>
    match p, s with
    | [], [] => true
    | [], _ :: _ => false
    | '*' :: p1, s =>
      fnmatchAux fuel p1 s ||
        (match s with
         | [] => false
         | _ :: t => fnmatchAux fuel ('*' :: p1) t)
    | '?' :: p1, s =>
      (match s with
       | [] => false
       | _ :: t => fnmatchAux fuel p1 t)
    | '[' :: p1, s =>
      (match parseClass p1 with
       | some (neg, body, rest) =>
         (match s with
          | [] => false
          | c :: t => (inCharClass body c != neg) && fnmatchAux fuel rest t)
       | none =>
         (match s with
          | '[' :: t => fnmatchAux fuel p1 t
          | _ => false))
    | c :: p1, s =>
      (match s with
       | d :: t => c == d && fnmatchAux fuel p1 t
       | _ => false)

/-- Full match of a path segment against a wildcard glob segment
(re.compile(r"\A" + fnmatch.translate(name)).match(part) is not None). -/
def fnmatchSeg (p s : List Char) : Bool := fnmatchAux (p.length + s.length + 1) p s

/-- Models the check any(ch in name for ch in "*?[") of
GlobMatcher._to_parts_list. -/
def isWildcardSeg (name : Seg) : Bool :=
  name.any fun c => c == '*' || c == '?' || c == '['

/-- One entry of the compiled pattern-part list: a literal segment compared
by equality, or a wildcard segment compared by translated-glob matching. -/
inductive PatternPart where
  | literal (s : Seg)
  | wildcard (s : Seg)
deriving DecidableEq

/-- How a compiled part matches one path segment (GlobMatcher.items_match on
a single pair): string equality for a literal entry, regular-expression
matching for a wildcard entry. -/
def PatternPart.matchesSeg : PatternPart → Seg → Bool
  | .literal l, sg => l == sg
  | .wildcard w, sg => fnmatchSeg w sg

/-- A construction-time failure: valueError models the
ValueError raised by GlobMatcher._to_parts_list for a second recursive
wildcard, and reError models the re.error raised by re.compile when a
wildcard segment translates to an invalid regular expression (a character
class with a bad range); it records the offending segment. -/
inductive CompileError where
  | valueError (msg : String)
  | reError (seg : Seg)
deriving DecidableEq

/-- The fixed message of the ValueError raised for a second recursive
wildcard segment (models.py line 174). -/
def onlyOneMsg : String := "Only one occurrence of the \"**\" pattern is allowed."

/-- The recursive-descent marker segment. -/
def starStarSeg : Seg := ['*', '*']

/-- The pattern suffix that selects the starts-with strategy. -/
def sepStarSuffix : Seg := ['/', '*', '*', '/', '*']

/-- Models the loop body of GlobMatcher._to_parts_list: walks the segments
with the running index and the marker index found so far, turning each
segment into a literal or compiled-wildcard entry, and failing on a second
recursive-descent marker (ValueError) or on a wildcard segment whose
translation does not compile (re.error). -/
def toPartsAux : List Seg → Nat → Option Nat →
    Except CompileError (List PatternPart × Option Nat)
  | [], _, w0 => .ok ([], w0)
  | name :: rest, i, w0 =>
    if name = starStarSeg then
      match w0 with
      | some _ => .error (.valueError onlyOneMsg)
      | none =>
        match toPartsAux rest (i + 1) (some i) with
        | .error e => .error e
        | .ok (ps, w1) => .ok (.literal name :: ps, w1)
    else if isWildcardSeg name then
      if segOk name then
        match toPartsAux rest (i + 1) w0 with
        | .error e => .error e
        | .ok (ps, w1) => .ok (.wildcard name :: ps, w1)
      else .error (.reError name)
    else
      match toPartsAux rest (i + 1) w0 with
      | .error e => .error e
      | .ok (ps, w1) => .ok (.literal name :: ps, w1)

/-- GlobMatcher._to_parts_list: splits the pattern and classifies each
segment, returning the part list and the index of the recursive-descent
marker (none when absent). -/
def toPartsList (pattern : Seg) : Except CompileError (List PatternPart × Option Nat) :=
  toPartsAux (splitPath pattern) 0 none

/-- A compiled GlobMatcher: either the starts-with strategy holding the
literal pattern text minus its final four characters, or the
segment-list strategy holding the part list and the marker index. -/
inductive GlobMatcher where
  | startsWith (pref : Seg)
  | listParts (pparts : List PatternPart) (wIdx : Option Nat)
deriving DecidableEq

/-- GlobMatcher.__init__: a pattern ending in the five characters
slash-star-star-slash-star compiles to the starts-with strategy with the
pattern text minus its last four characters (so the stored text keeps its
trailing slash); every other pattern compiles through _to_parts_list. -/
def GlobMatcher.init (pattern : Seg) : Except CompileError GlobMatcher :=
  if sepStarSuffix.isSuffixOf pattern then
    .ok (.startsWith (pattern.take (pattern.length - 4)))
  else
    match toPartsList pattern with
    | .error e => .error e
    | .ok (pp, w) => .ok (.listParts pp w)

/-- GlobMatcher.items_match: false when the path index is beyond the path
segments; otherwise the part at the pattern index is compared with the
segment at the path index.  The source indexes self._pattern_parts[i1]
without a guard, so an out-of-range pattern index is a runtime error,
modelled as none; every call site keeps i1 in range. -/
def itemsMatch (pp : List PatternPart) (parts : List Seg) (i1 i2 : Nat) : Option Bool :=
  if parts.length ≤ i2 then some false
  else
    match pp[i1]?, parts[i2]? with
    | some part, some sg => some (part.matchesSeg sg)
    | _, _ => none

/-- The top-down loop of GlobMatcher._match_with_list_parts
(for index in range(wildcard_index)), with the remaining iteration count as
the first argument and the current index as the second: stops with false on
the first mismatching pair, with true when the count is exhausted. -/
def topDownAux (pp : List PatternPart) (parts : List Seg) : Nat → Nat → Option Bool
  | 0, _ => some true
  | k + 1, i =>
    match itemsMatch pp parts i i with
    | none => none
    | some false => some false
    | some true => topDownAux pp parts k (i + 1)

/-- The bottom-up loop of GlobMatcher._match_with_list_parts, walking the
pattern index and the path index downwards while the pattern index is above
the marker and the path index is non-negative, and finally reporting
whether the pattern index landed on the marker.  The fuel argument only
bounds the recursion; bottomUp supplies the exact loop-iteration bound
(pattern index minus marker index), at which the zero-fuel case coincides
with the loop guard being false. -/
def bottomUpAux (pp : List PatternPart) (parts : List Seg) (w : Nat) :
    Nat → Int → Int → Option Bool
  | 0, pi, _ => some (pi == (w : Int))
  | fuel + 1, pi, qi =>
    if (w : Int) < pi ∧ 0 ≤ qi then
      match itemsMatch pp parts pi.toNat qi.toNat with
      | none => none
      | some false => some false
      | some true => bottomUpAux pp parts w fuel (pi - 1) (qi - 1)
    else some (pi == (w : Int))

/-- The bottom-up walk from the given start indices. -/
def bottomUp (pp : List PatternPart) (parts : List Seg) (w : Nat) (pi qi : Int) :
    Option Bool :=
  bottomUpAux pp parts w (pi - (w : Int)).toNat pi qi

/-- GlobMatcher._match_with_list_parts: splits the path, runs the top-down
walk up to the marker index (or the full part count when no marker exists);
without a marker the result is the part-count / segment-count equality, and
with a marker the bottom-up walk decides. -/
def GlobMatcher.matchWithListParts (pp : List PatternPart) (wOpt : Option Nat)
    (path : Seg) : Option Bool :=
  match topDownAux pp (splitPath path) (wOpt.getD pp.length) 0 with
  | none => none
  | some false => some false
  | some true =>
    match wOpt with
    | none => some (pp.length == (splitPath path).length)
    | some _ =>
      bottomUp pp (splitPath path) (wOpt.getD pp.length) ((pp.length : Int) - 1)
        (((splitPath path).length : Int) - 1)

/-- GlobMatcher._match_with_starts_with: path.startswith(self._pattern). -/
def GlobMatcher.matchWithStartsWith (pref : Seg) (path : Seg) : Option Bool :=
  some (pref.isPrefixOf path)

/-- GlobMatcher.matches: the strategy bound at construction time. -/
def GlobMatcher.matches : GlobMatcher → Seg → Option Bool
  | .startsWith pref, path => GlobMatcher.matchWithStartsWith pref path
  | .listParts pp w, path => GlobMatcher.matchWithListParts pp w path

/-- GlobSet.__init__: compiles every pattern of the configuration list in
order, propagating the first compilation failure. -/
def GlobSet.init : List Seg → Except CompileError (List GlobMatcher)
  | [] => .ok []
  | p :: rest =>
    match GlobMatcher.init p with
    | .error e => .error e
    | .ok m =>
      match GlobSet.init rest with
      | .error e => .error e
      | .ok ms => .ok (m :: ms)

/-- GlobSet.matches: any(matcher.matches(path) for matcher in
self._matchers), short-circuiting on the first success, with an error of an
evaluated matcher propagated. -/
def GlobSet.matches : List GlobMatcher → Seg → Option Bool
  | [], _ => some false
  | m :: ms, path =>
    match GlobMatcher.matches m path with
    | none => none
    | some true => some true
    | some false => GlobSet.matches ms path

-- Sanity checks of the embedding on the concrete scenarios of the spec.
example : splitPath (chars "a/x/y/z") = [chars "a", chars "x", chars "y", chars "z"] := rfl

example : GlobMatcher.init (chars "a/**/z") =
    .ok (.listParts [.literal (chars "a"), .literal (chars "**"), .literal (chars "z")]
      (some 1)) := rfl

example : GlobMatcher.init (chars "data/**/*") = .ok (.startsWith (chars "data/")) := rfl

example : (GlobMatcher.init (chars "data/**/*")).map
    (fun m => m.matches (chars "data/a/b/c")) = .ok (some true) := rfl

example : (GlobMatcher.init (chars "a/**/z")).map
    (fun m => m.matches (chars "a/z")) = .ok (some true) := rfl

example : (GlobMatcher.init (chars "a/**/z")).map
    (fun m => m.matches (chars "a/x/y/z")) = .ok (some true) := rfl

example : (GlobMatcher.init (chars "a/**/z")).map
    (fun m => m.matches (chars "b/z")) = .ok (some false) := rfl

example : (GlobMatcher.init (chars "*.txt")).map
    (fun m => m.matches (chars "notes.txt")) = .ok (some true) := rfl

example : (GlobMatcher.init (chars "*.txt")).map
    (fun m => m.matches (chars "dir/notes.txt")) = .ok (some false) := rfl

example : GlobMatcher.init (chars "a/**/b/**/c") = .error (.valueError onlyOneMsg) := rfl

example : (GlobSet.init [chars "*.log", chars "tmp/**/*"]).map
    (fun ms => GlobSet.matches ms (chars "app.log")) = .ok (some true) := rfl

example : (GlobSet.init [chars "*.log", chars "tmp/**/*"]).map
    (fun ms => GlobSet.matches ms (chars "tmp/x/y")) = .ok (some true) := rfl

example : (GlobSet.init [chars "*.log", chars "tmp/**/*"]).map
    (fun ms => GlobSet.matches ms (chars "src/app.py")) = .ok (some false) := rfl

/-! Helper lemmas about path splitting. -/

theorem splitPath_cons (c : Char) (rest : List Char) (a : Seg) (b : List Seg)
    (h : splitPath rest = a :: b) :
    splitPath (c :: rest) = if c = '/' then [] :: a :: b else (c :: a) :: b := by
  simp only [splitPath]
  rw [h]

theorem splitPath_ne_nil (p : List Char) : splitPath p ≠ [] := by
  induction p with
  | nil => simp [splitPath]
  | cons c rest ih =>
    cases h : splitPath rest with
    | nil => exact absurd h ih
    | cons a b =>
      rw [splitPath_cons c rest a b h]
      split <;> simp

theorem joinPath_splitPath (p : List Char) : joinPath (splitPath p) = p := by
  induction p with
  | nil => rfl
  | cons c rest ih =>
    cases h : splitPath rest with
    | nil => exact absurd h (splitPath_ne_nil rest)
    | cons a b =>
      rw [splitPath_cons c rest a b h]
      rw [h] at ih
      by_cases hc : c = '/'
      · subst hc
        rw [if_pos rfl]
        simp only [joinPath, List.nil_append]
        rw [ih]
      · rw [if_neg hc]
        cases b with
        | nil =>
          simp only [joinPath] at ih ⊢
          rw [ih]
        | cons x y =>
          simp only [joinPath] at ih ⊢
          rw [← ih]
          simp

theorem splitPath_inj {p q : List Char} (h : splitPath p = splitPath q) : p = q := by
  calc p = joinPath (splitPath p) := (joinPath_splitPath p).symm
    _ = joinPath (splitPath q) := by rw [h]
    _ = q := joinPath_splitPath q

theorem exists_mem_splitPath {c : Char} {p : List Char} (hm : c ∈ p) (hc : c ≠ '/') :
    ∃ s ∈ splitPath p, c ∈ s := by
  induction p with
  | nil => cases hm
  | cons d rest ih =>
    cases h : splitPath rest with
    | nil => exact absurd h (splitPath_ne_nil rest)
    | cons a b =>
      rw [splitPath_cons d rest a b h]
      rcases List.mem_cons.mp hm with rfl | hm2
      · rw [if_neg hc]
        exact ⟨c :: a, List.mem_cons_self _ _, List.mem_cons_self _ _⟩
      · obtain ⟨s, hs, hcs⟩ := ih hm2
        rw [h] at hs
        by_cases hd : d = '/'
        · rw [if_pos hd]
          exact ⟨s, List.mem_cons_of_mem _ hs, hcs⟩
        · rw [if_neg hd]
          rcases List.mem_cons.mp hs with rfl | hs2
          · exact ⟨d :: s, List.mem_cons_self _ _, List.mem_cons_of_mem _ hcs⟩
          · exact ⟨s, List.mem_cons_of_mem _ hs2, hcs⟩

/-! Helper lemmas about pattern compilation. -/

theorem toPartsAux_length : ∀ (segs : List Seg) (i : Nat) (w0 : Option Nat)
    (pp : List PatternPart) (w1 : Option Nat),
    toPartsAux segs i w0 = .ok (pp, w1) → pp.length = segs.length := by
  intro segs
  induction segs with
  | nil =>
    intro i w0 pp w1 h
    simp only [toPartsAux, Except.ok.injEq, Prod.mk.injEq] at h
    rw [← h.1]
    rfl
  | cons name rest ih =>
    intro i w0 pp w1 h
    simp only [toPartsAux] at h
    by_cases h1 : name = starStarSeg
    · rw [if_pos h1] at h
      cases w0 with
      | some j => simp at h
      | none =>
        cases heq : toPartsAux rest (i + 1) (some i) with
        | error e => rw [heq] at h; simp at h
        | ok pw =>
          obtain ⟨ps, w2⟩ := pw
          rw [heq] at h
          simp only [Except.ok.injEq, Prod.mk.injEq] at h
          rw [← h.1]
          simp only [List.length_cons]
          rw [ih _ _ _ _ heq]
    · rw [if_neg h1] at h
      by_cases h2 : isWildcardSeg name = true
      · rw [if_pos h2] at h
        by_cases h3 : segOk name = true
        · rw [if_pos h3] at h
          cases heq : toPartsAux rest (i + 1) w0 with
          | error e => rw [heq] at h; simp at h
          | ok pw =>
            obtain ⟨ps, w2⟩ := pw
            rw [heq] at h
            simp only [Except.ok.injEq, Prod.mk.injEq] at h
            rw [← h.1]
            simp only [List.length_cons]
            rw [ih _ _ _ _ heq]
        · rw [if_neg h3] at h
          simp at h
      · rw [if_neg h2] at h
        cases heq : toPartsAux rest (i + 1) w0 with
        | error e => rw [heq] at h; simp at h
        | ok pw =>
          obtain ⟨ps, w2⟩ := pw
          rw [heq] at h
          simp only [Except.ok.injEq, Prod.mk.injEq] at h
          rw [← h.1]
          simp only [List.length_cons]
          rw [ih _ _ _ _ heq]

theorem toPartsAux_marker : ∀ (segs : List Seg) (i : Nat) (w0 : Option Nat)
    (pp : List PatternPart) (w : Nat),
    toPartsAux segs i w0 = .ok (pp, some w) →
    w0 = some w ∨
      (i ≤ w ∧ w - i < pp.length ∧ pp[w - i]? = some (.literal starStarSeg)) := by
  intro segs
  induction segs with
  | nil =>
    intro i w0 pp w h
    simp only [toPartsAux, Except.ok.injEq, Prod.mk.injEq] at h
    exact Or.inl h.2
  | cons name rest ih =>
    intro i w0 pp w h
    simp only [toPartsAux] at h
    by_cases h1 : name = starStarSeg
    · rw [if_pos h1] at h
      cases w0 with
      | some j => simp at h
      | none =>
        cases heq : toPartsAux rest (i + 1) (some i) with
        | error e => rw [heq] at h; simp at h
        | ok pw =>
          obtain ⟨ps, w2⟩ := pw
          rw [heq] at h
          simp only [Except.ok.injEq, Prod.mk.injEq] at h
          obtain ⟨hpp, hw2⟩ := h
          subst hw2
          rcases ih _ _ _ _ heq with h3 | ⟨h4, h5, h6⟩
          · have hiw : i = w := by injection h3
            subst hiw
            refine Or.inr ⟨le_refl i, ?_, ?_⟩
            · rw [← hpp]; simp
            · rw [← hpp, Nat.sub_self]
              simp [h1]
          · refine Or.inr ⟨by omega, ?_, ?_⟩
            · rw [← hpp]; simp; omega
            · rw [← hpp]
              have hsub : w - i = (w - (i + 1)) + 1 := by omega
              rw [hsub, List.getElem?_cons_succ]
              exact h6
    · rw [if_neg h1] at h
      by_cases h2 : isWildcardSeg name = true
      · rw [if_pos h2] at h
        by_cases h3 : segOk name = true
        · rw [if_pos h3] at h
          cases heq : toPartsAux rest (i + 1) w0 with
          | error e => rw [heq] at h; simp at h
          | ok pw =>
            obtain ⟨ps, w2⟩ := pw
            rw [heq] at h
            simp only [Except.ok.injEq, Prod.mk.injEq] at h
            obtain ⟨hpp, hw2⟩ := h
            subst hw2
            rcases ih _ _ _ _ heq with h4 | ⟨h5, h6, h7⟩
            · exact Or.inl h4
            · refine Or.inr ⟨by omega, ?_, ?_⟩
              · rw [← hpp]; simp; omega
              · rw [← hpp]
                have hsub : w - i = (w - (i + 1)) + 1 := by omega
                rw [hsub, List.getElem?_cons_succ]
                exact h7
        · rw [if_neg h3] at h
          simp at h
      · rw [if_neg h2] at h
        cases heq : toPartsAux rest (i + 1) w0 with
        | error e => rw [heq] at h; simp at h
        | ok pw =>
          obtain ⟨ps, w2⟩ := pw
          rw [heq] at h
          simp only [Except.ok.injEq, Prod.mk.injEq] at h
          obtain ⟨hpp, hw2⟩ := h
          subst hw2
          rcases ih _ _ _ _ heq with h4 | ⟨h5, h6, h7⟩
          · exact Or.inl h4
          · refine Or.inr ⟨by omega, ?_, ?_⟩
            · rw [← hpp]; simp; omega
            · rw [← hpp]
              have hsub : w - i = (w - (i + 1)) + 1 := by omega
              rw [hsub, List.getElem?_cons_succ]
              exact h7

theorem toPartsAux_literals : ∀ (segs : List Seg) (i : Nat) (w0 : Option Nat),
    (∀ s ∈ segs, isWildcardSeg s = false) →
    toPartsAux segs i w0 = .ok (segs.map .literal, w0) := by
  intro segs
  induction segs with
  | nil => intro i w0 _; rfl
  | cons name rest ih =>
    intro i w0 hall
    have hname : isWildcardSeg name = false := hall name (List.mem_cons_self _ _)
    have hrest : ∀ s ∈ rest, isWildcardSeg s = false :=
      fun s hs => hall s (List.mem_cons_of_mem _ hs)
    have hne : ¬(name = starStarSeg) := by
      intro hcontra
      rw [hcontra] at hname
      simp [isWildcardSeg, starStarSeg] at hname
    have hnw : ¬(isWildcardSeg name = true) := by rw [hname]; simp
    simp only [toPartsAux]
    rw [if_neg hne, if_neg hnw, ih (i + 1) w0 hrest]
    rfl

theorem toPartsAux_valueError : ∀ (segs : List Seg) (i : Nat) (w0 : Option Nat)
    (msg : String), toPartsAux segs i w0 = .error (.valueError msg) → msg = onlyOneMsg := by
  intro segs
  induction segs with
  | nil => intro i w0 msg h; cases h
  | cons name rest ih =>
    intro i w0 msg h
    simp only [toPartsAux] at h
    by_cases h1 : name = starStarSeg
    · rw [if_pos h1] at h
      cases w0 with
      | some j =>
        simp only [Except.error.injEq, CompileError.valueError.injEq] at h
        exact h.symm
      | none =>
        cases heq : toPartsAux rest (i + 1) (some i) with
        | error e =>
          rw [heq] at h
          simp only [Except.error.injEq] at h
          rw [h] at heq
          exact ih _ _ _ heq
        | ok pw =>
          obtain ⟨ps, w2⟩ := pw
          rw [heq] at h
          simp at h
    · rw [if_neg h1] at h
      by_cases h2 : isWildcardSeg name = true
      · rw [if_pos h2] at h
        by_cases h3 : segOk name = true
        · rw [if_pos h3] at h
          cases heq : toPartsAux rest (i + 1) w0 with
          | error e =>
            rw [heq] at h
            simp only [Except.error.injEq] at h
            rw [h] at heq
            exact ih _ _ _ heq
          | ok pw =>
            obtain ⟨ps, w2⟩ := pw
            rw [heq] at h
            simp at h
        · rw [if_neg h3] at h
          simp only [Except.error.injEq] at h
          cases h
      · rw [if_neg h2] at h
        cases heq : toPartsAux rest (i + 1) w0 with
        | error e =>
          rw [heq] at h
          simp only [Except.error.injEq] at h
          rw [h] at heq
          exact ih _ _ _ heq
        | ok pw =>
          obtain ⟨ps, w2⟩ := pw
          rw [heq] at h
          simp at h

theorem init_listParts_inv {pat : Seg} {pp : List PatternPart} {wOpt : Option Nat}
    (h : GlobMatcher.init pat = .ok (.listParts pp wOpt)) :
    sepStarSuffix.isSuffixOf pat = false ∧
      toPartsAux (splitPath pat) 0 none = .ok (pp, wOpt) := by
  unfold GlobMatcher.init at h
  split at h
  · exfalso
    injection h with h2
    cases h2
  · next hs =>
    refine ⟨Bool.eq_false_iff.mpr hs, ?_⟩
    unfold toPartsList at h
    split at h
    · cases h
    · next pp2 w2 heq =>
      injection h with h2
      injection h2 with h3 h4
      rw [← h3, ← h4]
      exact heq

theorem init_marker_bound {pat : Seg} {pp : List PatternPart} {w : Nat}
    (h : GlobMatcher.init pat = .ok (.listParts pp (some w))) :
    w < pp.length ∧ pp[w]? = some (.literal starStarSeg) := by
  obtain ⟨-, h2⟩ := init_listParts_inv h
  rcases toPartsAux_marker _ _ _ _ _ h2 with h3 | ⟨-, h4, h5⟩
  · cases h3
  · constructor
    · simpa using h4
    · simpa using h5

/-! Helper lemmas about the matching loops. -/

theorem itemsMatch_isSome (pp : List PatternPart) (parts : List Seg) (i1 i2 : Nat)
    (h : i1 < pp.length) : (itemsMatch pp parts i1 i2).isSome = true := by
  unfold itemsMatch
  split
  · rfl
  · next h2 =>
    have hlt : i2 < parts.length := by omega
    rw [List.getElem?_eq_getElem h, List.getElem?_eq_getElem hlt]
    rfl

theorem topDownAux_eq_true_iff (pp : List PatternPart) (parts : List Seg) :
    ∀ (k i : Nat), topDownAux pp parts k i = some true ↔
      ∀ j, j < k → itemsMatch pp parts (i + j) (i + j) = some true := by
  intro k
  induction k with
  | zero =>
    intro i
    simp [topDownAux]
  | succ k ih =>
    intro i
    rw [topDownAux]
    cases hm : itemsMatch pp parts i i with
    | none =>
      simp only []
      constructor
      · intro h; cases h
      · intro hall
        have h0 := hall 0 (Nat.succ_pos k)
        rw [Nat.add_zero, hm] at h0
        cases h0
    | some b =>
      cases b with
      | false =>
        simp only []
        constructor
        · intro h; cases h
        · intro hall
          have h0 := hall 0 (Nat.succ_pos k)
          rw [Nat.add_zero, hm] at h0
          cases h0
      | true =>
        simp only []
        rw [ih (i + 1)]
        constructor
        · intro hall j hj
          cases j with
          | zero => rw [Nat.add_zero]; exact hm
          | succ j2 =>
            have hh := hall j2 (by omega)
            have harith : i + 1 + j2 = i + (j2 + 1) := by omega
            rw [harith] at hh
            exact hh
        · intro hall j hj
          have hh := hall (j + 1) (by omega)
          have harith : i + (j + 1) = i + 1 + j := by omega
          rw [harith] at hh
          exact hh

theorem topDownAux_isSome (pp : List PatternPart) (parts : List Seg) :
    ∀ (k i : Nat), i + k ≤ pp.length → (topDownAux pp parts k i).isSome = true := by
  intro k
  induction k with
  | zero => intro i _; rfl
  | succ k ih =>
    intro i hb
    rw [topDownAux]
    cases hm : itemsMatch pp parts i i with
    | none =>
      exfalso
      have hsome := itemsMatch_isSome pp parts i i (by omega)
      rw [hm] at hsome
      cases hsome
    | some b =>
      cases b with
      | false => simp [hm]
      | true =>
        simp only [hm]
        exact ih (i + 1) (by omega)

theorem bottomUpAux_isSome (pp : List PatternPart) (parts : List Seg) (w : Nat) :
    ∀ (fuel : Nat) (pi qi : Int), pi < (pp.length : Int) →
      (bottomUpAux pp parts w fuel pi qi).isSome = true := by
  intro fuel
  induction fuel with
  | zero => intro pi qi _; rfl
  | succ fuel ih =>
    intro pi qi hlt
    rw [bottomUpAux]
    split
    · next hg =>
      obtain ⟨hg1, hg2⟩ := hg
      cases hm : itemsMatch pp parts pi.toNat qi.toNat with
      | none =>
        exfalso
        have hpn : pi.toNat < pp.length := by omega
        have hsome := itemsMatch_isSome pp parts pi.toNat qi.toNat hpn
        rw [hm] at hsome
        cases hsome
      | some b =>
        cases b with
        | false => simp [hm]
        | true =>
          simp only [hm]
          exact ih (pi - 1) (qi - 1) (by omega)
    · rfl

theorem bottomUpAux_eq_true (pp : List PatternPart) (parts : List Seg) (w m p : Nat)
    (H : ∀ jj, jj < p → itemsMatch pp parts (w + 1 + jj) (w + m + jj) = some true) :
    ∀ j, j ≤ p →
      bottomUpAux pp parts w j ((w + j : Nat) : Int) (((w + m + j : Nat) : Int) - 1) =
        some true := by
  intro j
  induction j with
  | zero =>
    intro _
    rw [bottomUpAux]
    simp
  | succ j ih =>
    intro hj
    rw [bottomUpAux]
    have hg : ((w : Int) < ((w + (j + 1) : Nat) : Int) ∧
        (0 : Int) ≤ ((w + m + (j + 1) : Nat) : Int) - 1) := by
      constructor <;> (push_cast; omega)
    rw [if_pos hg]
    have e1 : (((w + (j + 1) : Nat) : Int)).toNat = w + 1 + j := by omega
    have e2 : ((((w + m + (j + 1) : Nat)) : Int) - 1).toNat = w + m + j := by omega
    rw [e1, e2, H j (by omega)]
    have e3 : (((w + (j + 1) : Nat)) : Int) - 1 = ((w + j : Nat) : Int) := by
      push_cast; ring
    have e4 : ((((w + m + (j + 1) : Nat)) : Int) - 1) - 1 =
        (((w + m + j : Nat)) : Int) - 1 := by
      push_cast; ring
    rw [e3, e4]
    exact ih (by omega)

theorem bottomUpAux_eq_false (pp : List PatternPart) (parts : List Seg) (w : Nat) :
    ∀ (fuel : Nat) (pi qi : Int), (w : Int) + 1 < pi - qi → -1 ≤ qi →
      pi < (pp.length : Int) →
      bottomUpAux pp parts w fuel pi qi = some false := by
  intro fuel
  induction fuel with
  | zero =>
    intro pi qi h1 h2 _
    rw [bottomUpAux]
    have hne : ¬(pi = (w : Int)) := by omega
    simp only [Option.some.injEq]
    exact beq_eq_false_iff_ne.mpr hne
  | succ fuel ih =>
    intro pi qi h1 h2 hlt
    rw [bottomUpAux]
    split
    · next hg =>
      obtain ⟨hg1, hg2⟩ := hg
      cases hm : itemsMatch pp parts pi.toNat qi.toNat with
      | none =>
        exfalso
        have hpn : pi.toNat < pp.length := by omega
        have hsome := itemsMatch_isSome pp parts pi.toNat qi.toNat hpn
        rw [hm] at hsome
        cases hsome
      | some b =>
        cases b with
        | false => simp [hm]
        | true =>
          simp only [hm]
          exact ih (pi - 1) (qi - 1) (by omega) (by omega) (by omega)
    · next hg =>
      have hne : ¬(pi = (w : Int)) := by omega
      simp only [Option.some.injEq]
      exact beq_eq_false_iff_ne.mpr hne

/-- Every successfully compiled matcher answers every query without a
runtime error: each pattern-part index fed to items_match stays in range. -/
theorem matches_isSome {pat : Seg} {m : GlobMatcher}
    (hc : GlobMatcher.init pat = .ok m) (path : Seg) :
    (GlobMatcher.matches m path).isSome = true := by
  cases m with
  | startsWith pref => rfl
  | listParts pp wOpt =>
    show (GlobMatcher.matchWithListParts pp wOpt path).isSome = true
    unfold GlobMatcher.matchWithListParts
    cases wOpt with
    | none =>
      have htd := topDownAux_isSome pp (splitPath path) pp.length 0 (by omega)
      cases htdv : topDownAux pp (splitPath path) (Option.getD none pp.length) 0 with
      | none =>
        simp only [Option.getD_none] at htdv
        rw [htdv] at htd
        cases htd
      | some b => cases b <;> simp
    | some w =>
      obtain ⟨hw, -⟩ := init_marker_bound hc
      have htd := topDownAux_isSome pp (splitPath path) w 0 (by omega)
      cases htdv : topDownAux pp (splitPath path) (Option.getD (some w) pp.length) 0 with
      | none =>
        simp only [Option.getD_some] at htdv
        rw [htdv] at htd
        cases htd
      | some b =>
        cases b with
        | false => simp
        | true =>
          simp only []
          unfold bottomUp
          exact bottomUpAux_isSome pp (splitPath path) _ _ _ _ (by omega)

/-- Pointwise access to a Forall₂ relation through optional indexing. -/
theorem forall₂_getElem? {α β : Type} {R : α → β → Prop} {l1 : List α}
    {l2 : List β} (h : List.Forall₂ R l1 l2) (j : Nat) (hj : j < l1.length) :
    ∃ x y, l1[j]? = some x ∧ l2[j]? = some y ∧ R x y := by
  rw [List.forall₂_iff_get] at h
  obtain ⟨hlen, hget⟩ := h
  refine ⟨l1.get ⟨j, hj⟩, l2.get ⟨j, by omega⟩, ?_, ?_, hget j hj (by omega)⟩
  · rw [List.getElem?_eq_getElem hj]
    rfl
  · rw [List.getElem?_eq_getElem (show j < l2.length by omega)]
    rfl

/-- Every matcher of a successfully built GlobSet arises from compiling one
of the configuration patterns. -/
theorem globSet_init_mem {pats : List Seg} {ms : List GlobMatcher}
    (h : GlobSet.init pats = .ok ms) :
    ∀ m ∈ ms, ∃ pat ∈ pats, GlobMatcher.init pat = .ok m := by
  induction pats generalizing ms with
  | nil =>
    simp only [GlobSet.init, Except.ok.injEq] at h
    rw [← h]
    intro m hm
    cases hm
  | cons p rest ih =>
    simp only [GlobSet.init] at h
    cases hp : GlobMatcher.init p with
    | error e => rw [hp] at h; simp at h
    | ok m0 =>
      rw [hp] at h
      cases hr : GlobSet.init rest with
      | error e => rw [hr] at h; simp at h
      | ok ms0 =>
        rw [hr] at h
        simp only [Except.ok.injEq] at h
        rw [← h]
        intro m hm
        rcases List.mem_cons.mp hm with rfl | hm2
        · exact ⟨p, List.mem_cons_self _ _, hp⟩
        · obtain ⟨pat, hpat, hinit⟩ := ih hr m hm2
          exact ⟨pat, List.mem_cons_of_mem _ hpat, hinit⟩

/-- On an all-literal part list, one items_match comparison succeeds exactly
when the two indexed segments agree (as optional lookups). -/
theorem itemsMatch_literal_iff (segs parts : List Seg) (j : Nat)
    (hj : j < segs.length) :
    itemsMatch (segs.map PatternPart.literal) parts j j = some true ↔
      segs[j]? = parts[j]? := by
  unfold itemsMatch
  by_cases hp : parts.length ≤ j
  · rw [if_pos hp]
    constructor
    · intro h; cases h
    · intro h
      exfalso
      rw [List.getElem?_eq_getElem hj, List.getElem?_eq_none hp] at h
      cases h
  · rw [if_neg hp]
    have hp2 : j < parts.length := by omega
    have h1 : (segs.map PatternPart.literal)[j]? = some (.literal segs[j]) := by
      rw [List.getElem?_map, List.getElem?_eq_getElem hj]
      rfl
    rw [h1, List.getElem?_eq_getElem hp2, List.getElem?_eq_getElem hj]
    simp only [PatternPart.matchesSeg, Option.some.injEq]
    exact beq_iff_eq

/-- Matching with an all-literal part list and no marker holds exactly when
the path splits into precisely the pattern's segments. -/
theorem matchWithListParts_literal_iff (segs : List Seg) (path : Seg) :
    GlobMatcher.matchWithListParts (segs.map PatternPart.literal) none path =
      some true ↔ splitPath path = segs := by
  unfold GlobMatcher.matchWithListParts
  simp only [Option.getD_none]
  have hlen : (segs.map PatternPart.literal).length = segs.length :=
    List.length_map _ _
  cases htd : topDownAux (segs.map PatternPart.literal) (splitPath path)
      (segs.map PatternPart.literal).length 0 with
  | none =>
    have hsome := topDownAux_isSome (segs.map PatternPart.literal) (splitPath path)
      (segs.map PatternPart.literal).length 0 (by omega)
    rw [htd] at hsome
    cases hsome
  | some b =>
    cases b with
    | false =>
      simp only []
      constructor
      · intro h; cases h
      · intro heq
        exfalso
        have htrue : topDownAux (segs.map PatternPart.literal) (splitPath path)
            (segs.map PatternPart.literal).length 0 = some true := by
          rw [topDownAux_eq_true_iff]
          intro j hj
          rw [Nat.zero_add, itemsMatch_literal_iff segs (splitPath path) j (by omega),
            heq]
        rw [htd] at htrue
        cases htrue
    | true =>
      simp only []
      have hall := (topDownAux_eq_true_iff _ _ _ _).mp htd
      constructor
      · intro h
        injection h with h2
        have hlen2 : segs.length = (splitPath path).length := by
          have h3 : (segs.map PatternPart.literal).length = (splitPath path).length := by
            simpa using h2
          omega
        apply List.ext_getElem?
        intro n
        by_cases hn : n < segs.length
        · have h4 := hall n (by omega)
          rw [Nat.zero_add, itemsMatch_literal_iff segs (splitPath path) n hn] at h4
          exact h4.symm
        · rw [List.getElem?_eq_none (by omega), List.getElem?_eq_none (by omega)]
      · intro heq
        have hlen2 : (splitPath path).length = segs.length := by rw [heq]
        have hbeq : ((segs.map PatternPart.literal).length ==
            (splitPath path).length) = true := by
          rw [hlen, hlen2]
          exact beq_self_eq_true _
        rw [hbeq]

/-! The claims. -/

/-- C3 counterexample: the claim reads the literal text as the pattern minus
its trailing star only.  For the pattern data/**/* that text is data/**/,
which is not a prefix of the path data/a, yet matching data/a succeeds: the
stored text is the pattern minus its trailing four characters, data/. -/
theorem c3_cex_stored_text_is_take_four :
    GlobMatcher.init (chars "data/**/*") = .ok (.startsWith (chars "data/")) ∧
    GlobMatcher.matches (.startsWith (chars "data/")) (chars "data/a") = some true ∧
    ((chars "data/**/*").take ((chars "data/**/*").length - 1)).isPrefixOf
      (chars "data/a") = false :=
  ⟨rfl, rfl, rfl⟩

/-- C3 (amended): for every pattern ending in the five-character suffix
slash-star-star-slash-star, compilation selects the starts-with strategy
whose stored text is the pattern minus its trailing four characters (so the
text keeps its trailing separator), and a path matches exactly when it
starts with that text; no segment splitting is performed. -/
theorem c3_starts_with_strategy (pat : Seg)
    (hs : sepStarSuffix.isSuffixOf pat = true) :
    GlobMatcher.init pat = .ok (.startsWith (pat.take (pat.length - 4))) ∧
    ∀ path : Seg,
      GlobMatcher.matches (.startsWith (pat.take (pat.length - 4))) path =
        some ((pat.take (pat.length - 4)).isPrefixOf path) := by
  constructor
  · unfold GlobMatcher.init
    rw [if_pos hs]
  · intro path
    rfl

/-- C3 witness: the amended statement applied to the pattern data/**/*. -/
theorem c3_starts_with_strategy_witness :
    sepStarSuffix.isSuffixOf (chars "data/**/*") = true ∧
    GlobMatcher.init (chars "data/**/*") =
      .ok (.startsWith ((chars "data/**/*").take ((chars "data/**/*").length - 4))) :=
  ⟨rfl, (c3_starts_with_strategy (chars "data/**/*") rfl).1⟩

/-- C4: the pattern a/star-star/star-star/star contains two recursive-descent
marker segments, yet construction succeeds, both alone and inside a GlobSet,
because the ends-with check of GlobMatcher.__init__ runs before the
one-marker validation of _to_parts_list and diverts the pattern to the
starts-with strategy.  This contradicts the claim (and the class docstring,
which states that at most one occurrence of the marker is supported). -/
theorem c4_double_marker_compiles :
    (splitPath (chars "a/**/**/*")).count starStarSeg = 2 ∧
    GlobMatcher.init (chars "a/**/**/*") = .ok (.startsWith (chars "a/**/")) ∧
    GlobSet.init [chars "a/**/**/*"] = .ok [.startsWith (chars "a/**/")] :=
  ⟨rfl, rfl, rfl⟩

/-- C7: a successfully compiled matcher never fails at query time: every
query returns a boolean, for any path whatsoever. -/
theorem c7_matches_never_errors (pat : Seg) (m : GlobMatcher) (path : Seg)
    (hc : GlobMatcher.init pat = .ok m) :
    ∃ b : Bool, GlobMatcher.matches m path = some b := by
  have hsome := matches_isSome hc path
  cases hm : GlobMatcher.matches m path with
  | none => rw [hm] at hsome; cases hsome
  | some b => exact ⟨b, rfl⟩

/-- C7 witness: the compiled pattern a/**/b queried on the empty path. -/
theorem c7_matches_never_errors_witness :
    GlobMatcher.init (chars "a/**/b") = .ok (.listParts [.literal (chars "a"),
      .literal starStarSeg, .literal (chars "b")] (some 1)) ∧
    ∃ b : Bool, GlobMatcher.matches (.listParts [.literal (chars "a"),
      .literal starStarSeg, .literal (chars "b")] (some 1)) (chars "") = some b :=
  ⟨rfl, c7_matches_never_errors (chars "a/**/b") _ (chars "") rfl⟩

/-- C8 counterexample: two different patterns that each fail on a second
recursive-descent marker produce literally identical errors, so the error
does not identify the offending pattern; the ValueError carries only a
fixed message. -/
theorem c8_cex_error_has_no_pattern :
    (chars "a/**/b/**") ≠ (chars "x/**/y/**") ∧
    GlobMatcher.init (chars "a/**/b/**") = .error (.valueError onlyOneMsg) ∧
    GlobMatcher.init (chars "x/**/y/**") = .error (.valueError onlyOneMsg) :=
  ⟨by decide, rfl, rfl⟩

/-- C8 (amended): whenever compilation fails with the InvalidPattern error
(the ValueError raised for a second recursive-descent marker), that error
carries only the fixed message about a single occurrence being allowed; the
offending pattern string is not part of the error. -/
theorem c8_invalid_pattern_fixed_message (pat : Seg) (msg : String)
    (h : GlobMatcher.init pat = .error (.valueError msg)) : msg = onlyOneMsg := by
  unfold GlobMatcher.init at h
  split at h
  · cases h
  · unfold toPartsList at h
    cases heq : toPartsAux (splitPath pat) 0 none with
    | error e =>
      rw [heq] at h
      simp only [Except.error.injEq] at h
      rw [h] at heq
      exact toPartsAux_valueError _ _ _ _ heq
    | ok pw =>
      obtain ⟨pp, w⟩ := pw
      rw [heq] at h
      simp at h

/-- C8 witness: the amended statement applied to the pattern a/**/b/**. -/
theorem c8_invalid_pattern_fixed_message_witness :
    GlobMatcher.init (chars "a/**/b/**") = .error (.valueError onlyOneMsg) ∧
    onlyOneMsg = onlyOneMsg :=
  ⟨rfl, c8_invalid_pattern_fixed_message (chars "a/**/b/**") onlyOneMsg rfl⟩

/-- C9: the top-down and bottom-up walks may both consume the same path
segment: the pattern a/**/a (two fixed segments) matches the one-segment
path a, because the bottom-up walk starts from the last path segment
without excluding segments already consumed top-down. -/
theorem c9_walks_share_a_segment :
    GlobMatcher.init (chars "a/**/a") = .ok (.listParts [.literal (chars "a"),
      .literal starStarSeg, .literal (chars "a")] (some 1)) ∧
    (splitPath (chars "a")).length < 2 ∧
    GlobMatcher.matches (.listParts [.literal (chars "a"), .literal starStarSeg,
      .literal (chars "a")] (some 1)) (chars "a") = some true :=
  ⟨rfl, by decide, rfl⟩

/-- C10: the pattern consisting of the marker segment alone compiles to the
segmented strategy with marker index zero and no fixed segments, and every
path matches it, including the empty string. -/
theorem c10_lone_marker_matches_all :
    GlobMatcher.init (chars "**") =
      .ok (.listParts [.literal starStarSeg] (some 0)) ∧
    ∀ path : Seg,
      GlobMatcher.matches (.listParts [.literal starStarSeg] (some 0)) path =
        some true :=
  ⟨rfl, fun _ => rfl⟩

/-- C2: a pattern with no recursive-descent marker segment and no wildcard
character in any of its segments compiles to an all-literal segmented
matcher, and a path matches it exactly when the path equals the pattern. -/
theorem c2_no_wildcards_exact_equality (pat : Seg)
    (hseg : ∀ s ∈ splitPath pat, isWildcardSeg s = false) (path : Seg) :
    GlobMatcher.init pat = .ok (.listParts ((splitPath pat).map .literal) none) ∧
    (GlobMatcher.matches (.listParts ((splitPath pat).map .literal) none) path =
        some true ↔ path = pat) := by
  have hns : ¬(sepStarSuffix.isSuffixOf pat = true) := by
    intro htrue
    have hsuf : sepStarSuffix <:+ pat := List.isSuffixOf_iff_suffix.mp htrue
    have hmem : '*' ∈ pat := hsuf.subset (by decide)
    obtain ⟨s, hs, hcs⟩ := exists_mem_splitPath hmem (by decide)
    have h2 := hseg s hs
    unfold isWildcardSeg at h2
    rw [List.any_eq_false] at h2
    have h3 := h2 '*' hcs
    simp at h3
  constructor
  · unfold GlobMatcher.init
    rw [if_neg hns]
    unfold toPartsList
    rw [toPartsAux_literals (splitPath pat) 0 none hseg]
  · show GlobMatcher.matchWithListParts _ none path = some true ↔ path = pat
    rw [matchWithListParts_literal_iff]
    constructor
    · exact fun h => splitPath_inj h
    · intro h
      rw [h]

/-- C2 witness: the wildcard-free pattern a/b matches the identical path. -/
theorem c2_no_wildcards_exact_equality_witness :
    (∀ s ∈ splitPath (chars "a/b"), isWildcardSeg s = false) ∧
    (GlobMatcher.matches
        (.listParts ((splitPath (chars "a/b")).map .literal) none) (chars "a/b") =
      some true ↔ (chars "a/b") = (chars "a/b")) :=
  ⟨by decide, (c2_no_wildcards_exact_equality (chars "a/b") (by decide) (chars "a/b")).2⟩

/-- C1 counterexample: the pattern a-star/marker/star contains exactly one
marker segment, and the path ab/x decomposes with pre-marker segment a-star
matching ab by wildcard and post-marker segment star matching x, so the
claim demands a successful match; but the pattern ends in the starts-with
suffix, compiles to the literal text a-star-slash, and the match fails. -/
theorem c1_cex_wildcard_head_compared_literally :
    (splitPath (chars "a*/**/*")).count starStarSeg = 1 ∧
    (splitPath (chars "a*/**/*")).take 1 = [chars "a*"] ∧
    (splitPath (chars "a*/**/*")).drop 2 = [chars "*"] ∧
    splitPath (chars "ab/x") = [chars "ab"] ++ ([] : List Seg) ++ [chars "x"] ∧
    fnmatchSeg (chars "a*") (chars "ab") = true ∧
    fnmatchSeg (chars "*") (chars "x") = true ∧
    GlobMatcher.init (chars "a*/**/*") = .ok (.startsWith (chars "a*/")) ∧
    GlobMatcher.matches (.startsWith (chars "a*/")) (chars "ab/x") = some false :=
  ⟨rfl, rfl, rfl, rfl, rfl, rfl, rfl, rfl⟩

/-- C1 (amended): for every pattern that compiles to the segmented strategy
with a recursive-descent marker (a pattern with exactly one marker segment
that does not end in the starts-with suffix), every path splitting as
A ++ mid ++ B, with A matching the compiled pre-marker parts pairwise and B
the compiled post-marker parts pairwise, matches — whatever the number of
segments in mid, including zero. -/
theorem c1_marker_decomposition (pat : Seg) (pp : List PatternPart) (w : Nat)
    (path : Seg) (A mid B : List Seg)
    (hc : GlobMatcher.init pat = .ok (.listParts pp (some w)))
    (hsplit : splitPath path = A ++ mid ++ B)
    (hA : List.Forall₂ (fun part sg => part.matchesSeg sg = true) (pp.take w) A)
    (hB : List.Forall₂ (fun part sg => part.matchesSeg sg = true)
      (pp.drop (w + 1)) B) :
    GlobMatcher.matches (.listParts pp (some w)) path = some true := by
  obtain ⟨hw, -⟩ := init_marker_bound hc
  have hAlen : A.length = w := by
    have h := hA.length_eq
    rw [List.length_take] at h
    omega
  have hBlen : B.length = pp.length - w - 1 := by
    have h := hB.length_eq
    rw [List.length_drop] at h
    omega
  have hplen : (splitPath path).length = w + mid.length + B.length := by
    rw [hsplit]
    simp only [List.length_append]
    omega
  have htd : topDownAux pp (splitPath path) w 0 = some true := by
    rw [topDownAux_eq_true_iff]
    intro j hj
    rw [Nat.zero_add]
    obtain ⟨part, sg, hp1, hp2, hR⟩ := forall₂_getElem? hA j
      (by rw [List.length_take]; omega)
    have hppj : pp[j]? = some part := by
      rw [List.getElem?_take, if_pos hj] at hp1
      exact hp1
    have hpartsj : (splitPath path)[j]? = some sg := by
      rw [hsplit, List.getElem?_append, if_pos
        (by simp only [List.length_append]; omega)]
      rw [List.getElem?_append, if_pos (by omega)]
      exact hp2
    unfold itemsMatch
    rw [if_neg (by omega), hppj, hpartsj]
    simp only []
    rw [hR]
  have hH : ∀ jj, jj < B.length →
      itemsMatch pp (splitPath path) (w + 1 + jj) (w + mid.length + jj) =
        some true := by
    intro jj hjj
    obtain ⟨part, sg, hp1, hp2, hR⟩ := forall₂_getElem? hB jj
      (by rw [List.length_drop]; omega)
    rw [List.getElem?_drop] at hp1
    have hpartsj : (splitPath path)[w + mid.length + jj]? = some sg := by
      rw [hsplit, List.getElem?_append_right
        (by simp only [List.length_append]; omega)]
      have harith : w + mid.length + jj - (A ++ mid).length = jj := by
        simp only [List.length_append]
        omega
      rw [harith]
      exact hp2
    unfold itemsMatch
    rw [if_neg (by omega), hp1, hpartsj]
    simp only []
    rw [hR]
  have hbu := bottomUpAux_eq_true pp (splitPath path) w mid.length B.length hH
    B.length (le_refl _)
  show GlobMatcher.matchWithListParts pp (some w) path = some true
  unfold GlobMatcher.matchWithListParts
  simp only [Option.getD_some]
  rw [htd]
  simp only []
  unfold bottomUp
  have e5 : (pp.length : Int) - 1 = ((w + B.length : Nat) : Int) := by omega
  have e6 : ((splitPath path).length : Int) - 1 =
      ((w + mid.length + B.length : Nat) : Int) - 1 := by omega
  rw [e5, e6]
  have e7 : (((w + B.length : Nat) : Int) - (w : Int)).toNat = B.length := by omega
  rw [e7]
  exact hbu

/-- C1 witness: the amended statement applied to the pattern a/**/z and the
path a/x/y/z, with two absorbed middle segments. -/
theorem c1_marker_decomposition_witness :
    GlobMatcher.init (chars "a/**/z") = .ok (.listParts [.literal (chars "a"),
      .literal starStarSeg, .literal (chars "z")] (some 1)) ∧
    splitPath (chars "a/x/y/z") =
      [chars "a"] ++ [chars "x", chars "y"] ++ [chars "z"] ∧
    GlobMatcher.matches (.listParts [.literal (chars "a"), .literal starStarSeg,
      .literal (chars "z")] (some 1)) (chars "a/x/y/z") = some true :=
  ⟨rfl, rfl,
    c1_marker_decomposition (chars "a/**/z") _ 1 (chars "a/x/y/z")
      [chars "a"] [chars "x", chars "y"] [chars "z"] rfl rfl
      (List.Forall₂.cons (by rfl) List.Forall₂.nil)
      (List.Forall₂.cons (by rfl) List.Forall₂.nil)⟩

/-- C5 counterexample: the pattern a/**/a has two fixed (non-marker)
segments, and the path a has one segment, fewer than that count; the claim
demands a failed match, yet matching succeeds, because the top-down and
bottom-up walks both consume the same path segment. -/
theorem c5_cex_one_segment_matches :
    GlobMatcher.init (chars "a/**/a") = .ok (.listParts [.literal (chars "a"),
      .literal starStarSeg, .literal (chars "a")] (some 1)) ∧
    (splitPath (chars "a")).length < 2 ∧
    GlobMatcher.matches (.listParts [.literal (chars "a"), .literal starStarSeg,
      .literal (chars "a")] (some 1)) (chars "a") = some true :=
  ⟨rfl, by decide, rfl⟩

/-- C5 (amended): with a recursive-descent marker, a path with fewer
segments than the pattern's post-marker segment count never matches: the
bottom-up walk exhausts the path segments while the pattern index is still
above the marker index, and any earlier mismatch also yields false. -/
theorem c5_short_path_returns_false (pat : Seg) (pp : List PatternPart) (w : Nat)
    (path : Seg) (hc : GlobMatcher.init pat = .ok (.listParts pp (some w)))
    (hshort : (splitPath path).length < pp.length - 1 - w) :
    GlobMatcher.matches (.listParts pp (some w)) path = some false := by
  obtain ⟨hw, -⟩ := init_marker_bound hc
  show GlobMatcher.matchWithListParts pp (some w) path = some false
  unfold GlobMatcher.matchWithListParts
  simp only [Option.getD_some]
  cases htd : topDownAux pp (splitPath path) w 0 with
  | none =>
    have hsome := topDownAux_isSome pp (splitPath path) w 0 (by omega)
    rw [htd] at hsome
    cases hsome
  | some b =>
    cases b with
    | false => rfl
    | true =>
      simp only []
      unfold bottomUp
      apply bottomUpAux_eq_false
      · omega
      · omega
      · omega

/-- C5 witness: the amended statement applied to the pattern a/**/b/c (two
post-marker segments) and the one-segment path x. -/
theorem c5_short_path_returns_false_witness :
    GlobMatcher.init (chars "a/**/b/c") = .ok (.listParts [.literal (chars "a"),
      .literal starStarSeg, .literal (chars "b"), .literal (chars "c")] (some 1)) ∧
    (splitPath (chars "x")).length < 4 - 1 - 1 ∧
    GlobMatcher.matches (.listParts [.literal (chars "a"), .literal starStarSeg,
      .literal (chars "b"), .literal (chars "c")] (some 1)) (chars "x") =
      some false :=
  ⟨rfl, by decide,
    c5_short_path_returns_false (chars "a/**/b/c") _ 1 (chars "x") rfl (by decide)⟩

/-- C6: a successfully built GlobSet matches a path exactly when at least
one of its compiled matchers does, and the GlobSet built from the empty
configuration list matches no path. -/
theorem c6_globSet_any (pats : List Seg) (ms : List GlobMatcher) (path : Seg)
    (h : GlobSet.init pats = .ok ms) :
    (GlobSet.matches ms path = some true ↔
      ∃ m ∈ ms, GlobMatcher.matches m path = some true) ∧
    (pats = [] → GlobSet.matches ms path = some false) := by
  constructor
  · have hall : ∀ m ∈ ms, (GlobMatcher.matches m path).isSome = true := by
      intro m hm
      obtain ⟨pat, -, hinit⟩ := globSet_init_mem h m hm
      exact matches_isSome hinit path
    clear h
    induction ms with
    | nil => simp [GlobSet.matches]
    | cons m ms ih =>
      simp only [GlobSet.matches]
      have hm0 := hall m (List.mem_cons_self _ _)
      cases hv : GlobMatcher.matches m path with
      | none => rw [hv] at hm0; cases hm0
      | some b =>
        cases b with
        | true =>
          simp only []
          constructor
          · intro _
            exact ⟨m, List.mem_cons_self _ _, hv⟩
          · intro _
            trivial
        | false =>
          simp only []
          have hih := ih (fun m2 hm2 => hall m2 (List.mem_cons_of_mem _ hm2))
          constructor
          · intro hgs
            obtain ⟨m2, hm2, hv2⟩ := hih.mp hgs
            exact ⟨m2, List.mem_cons_of_mem _ hm2, hv2⟩
          · rintro ⟨m2, hm2, hv2⟩
            rcases List.mem_cons.mp hm2 with rfl | hm3
            · rw [hv] at hv2
              cases hv2
            · exact hih.mpr ⟨m2, hm3, hv2⟩
  · intro hnil
    subst hnil
    simp only [GlobSet.init, Except.ok.injEq] at h
    rw [← h]
    rfl

/-- C6 witness: the set built from star-dot-log and tmp/**/* matches
app.log through its first member. -/
theorem c6_globSet_any_witness :
    GlobSet.init [chars "*.log", chars "tmp/**/*"] =
      .ok [.listParts [.wildcard (chars "*.log")] none,
        .startsWith (chars "tmp/")] ∧
    (GlobSet.matches [.listParts [.wildcard (chars "*.log")] none,
        .startsWith (chars "tmp/")] (chars "app.log") = some true ↔
      ∃ m ∈ [GlobMatcher.listParts [.wildcard (chars "*.log")] none,
        GlobMatcher.startsWith (chars "tmp/")],
        GlobMatcher.matches m (chars "app.log") = some true) :=
  ⟨rfl,
    (c6_globSet_any [chars "*.log", chars "tmp/**/*"] _ (chars "app.log") rfl).1⟩

end Rsconnect
